import Mathlib

/-!
Verification of the trade-lifecycle engine of the StratEdge repository.

The Python sources are shallowly embedded:
* `float` prices become `ℚ`;
* Python `dict`s become association lists (`List (key × value)`) with
  insertion-order semantics, via the `dictGet` / `dictDel` / `dictSet`
  helpers below;
* fallible operations return `Option`, exceptions raised by external
  collaborators are modelled with `Except`;
* `datetime.now()` is an explicit `now` argument threaded through the
  stateful operations, and wall-clock timestamps are abstract naturals.
-/

namespace StratEdge

/-! ### Association list helpers (Python `dict` semantics) -/

/-- Lookup in an association list: `d.get(k)` / `d[k]`. -/
def dictGet {α β : Type} [DecidableEq α] (k : α) : List (α × β) → Option β
  | [] => none
  | (k', v) :: t => if k' = k then some v else dictGet k t

/-- Deletion from an association list: `del d[k]` (removes the first—in a
real dict the unique—entry with key `k`). -/
def dictDel {α β : Type} [DecidableEq α] (k : α) : List (α × β) → List (α × β)
  | [] => []
  | (k', v) :: t => if k' = k then t else (k', v) :: dictDel k t

/-- Assignment `d[k] = v`: overwrites in place when the key exists,
otherwise appends (Python dicts preserve insertion order). -/
def dictSet {α β : Type} [DecidableEq α] (k : α) (v : β) (d : List (α × β)) :
    List (α × β) :=
  if (dictGet k d).isSome then
    d.map (fun kv => if kv.1 = k then (k, v) else kv)
  else
    d ++ [(k, v)]

theorem dictGet_eq_none_iff {α β : Type} [DecidableEq α] (k : α)
    (d : List (α × β)) : dictGet k d = none ↔ k ∉ d.map Prod.fst := by
  induction d with
  | nil => simp [dictGet]
  | cons hd t ih =>
    obtain ⟨k', v⟩ := hd
    by_cases hk : k' = k <;> simp [dictGet, hk, ih, Ne.symm]

theorem dictGet_mem {α β : Type} [DecidableEq α] {k : α} {v : β}
    {d : List (α × β)} (h : dictGet k d = some v) : (k, v) ∈ d := by
  induction d with
  | nil => simp [dictGet] at h
  | cons hd t ih =>
    obtain ⟨k', v'⟩ := hd
    by_cases hk : k' = k
    · subst hk
      simp [dictGet] at h
      simp [h]
    · simp [dictGet, hk] at h
      exact List.mem_cons_of_mem _ (ih h)

theorem dictDel_subset {α β : Type} [DecidableEq α] {k : α}
    {d : List (α × β)} {e : α × β} (h : e ∈ dictDel k d) : e ∈ d := by
  induction d with
  | nil => simp [dictDel] at h
  | cons hd t ih =>
    obtain ⟨k', v'⟩ := hd
    by_cases hk : k' = k
    · simp [dictDel, hk] at h
      exact List.mem_cons_of_mem _ h
    · simp [dictDel, hk] at h
      rcases h with h | h
      · simp [h]
      · exact List.mem_cons_of_mem _ (ih h)

theorem perm_keys_dictDel {α β : Type} [DecidableEq α] {k : α}
    {d : List (α × β)} (h : k ∈ d.map Prod.fst) :
    List.Perm (d.map Prod.fst) (k :: (dictDel k d).map Prod.fst) := by
  induction d with
  | nil => simp at h
  | cons hd t ih =>
    obtain ⟨k', v'⟩ := hd
    by_cases hk : k' = k
    · subst hk
      simp only [dictDel, if_pos rfl, List.map_cons]
      exact List.Perm.refl _
    · rw [List.map_cons, List.mem_cons] at h
      rcases h with he | h
      · exact absurd he.symm hk
      have step : dictDel k ((k', v') :: t) = (k', v') :: dictDel k t := by
        simp [dictDel, hk]
      have h1 : List.Perm (((k', v') :: t).map Prod.fst)
          (k' :: k :: (dictDel k t).map Prod.fst) := by
        simpa using List.Perm.cons k' (ih h)
      have h2 : List.Perm (k' :: k :: (dictDel k t).map Prod.fst)
          (k :: k' :: (dictDel k t).map Prod.fst) :=
        List.Perm.swap k k' _
      rw [step]
      simpa using h1.trans h2

theorem not_mem_keys_dictDel {α β : Type} [DecidableEq α] {k : α}
    {d : List (α × β)} (h : (d.map Prod.fst).Nodup) :
    k ∉ (dictDel k d).map Prod.fst := by
  induction d with
  | nil => simp [dictDel]
  | cons hd t ih =>
    obtain ⟨k', v'⟩ := hd
    rw [List.map_cons, List.nodup_cons] at h
    by_cases hk : k' = k
    · subst hk
      have step : dictDel k' ((k', v') :: t) = t := by simp [dictDel]
      rw [step]
      exact h.1
    · have step : dictDel k ((k', v') :: t) = (k', v') :: dictDel k t := by
        simp [dictDel, hk]
      rw [step, List.map_cons, List.mem_cons]
      rintro (he | he)
      · exact hk he.symm
      · exact ih h.2 he

/-! ### Python `min(xs, key=f)`

`pyMinKey f x xs` is `min` over the nonempty list `x :: xs` with key
function `f`: CPython scans left to right and replaces the champion only on
a strictly smaller key, so the first minimiser wins. -/

def pyMinKey (f : ℚ → ℚ) (x : ℚ) (xs : List ℚ) : ℚ :=
  xs.foldl (fun best s => if f s < f best then s else best) x

theorem pyMinKey_cons (f : ℚ → ℚ) (x s : ℚ) (xs : List ℚ) :
    pyMinKey f x (s :: xs) = pyMinKey f (if f s < f x then s else x) xs := rfl

theorem pyMinKey_mem (f : ℚ → ℚ) (x : ℚ) (xs : List ℚ) :
    pyMinKey f x xs ∈ x :: xs := by
  induction xs generalizing x with
  | nil => simp [pyMinKey]
  | cons s t ih =>
    rw [pyMinKey_cons]
    by_cases hs : f s < f x
    · rw [if_pos hs]
      rcases List.mem_cons.1 (ih s) with h | h
      · simp [h]
      · simp [List.mem_cons_of_mem _ (List.mem_cons_of_mem _ h)]
    · rw [if_neg hs]
      rcases List.mem_cons.1 (ih x) with h | h
      · simp [h]
      · simp [List.mem_cons_of_mem _ (List.mem_cons_of_mem _ h)]

theorem pyMinKey_le (f : ℚ → ℚ) (x : ℚ) (xs : List ℚ) :
    ∀ y ∈ x :: xs, f (pyMinKey f x xs) ≤ f y := by
  induction xs generalizing x with
  | nil => simp [pyMinKey]
  | cons s t ih =>
    intro y hy
    rw [pyMinKey_cons]
    simp only [List.mem_cons] at hy
    by_cases hs : f s < f x
    · rw [if_pos hs]
      rcases hy with rfl | rfl | hy
      · exact le_trans (ih s s (by simp)) (le_of_lt hs)
      · exact ih y y (by simp)
      · exact ih s y (by simp [hy])
    · rw [if_neg hs]
      rcases hy with rfl | rfl | hy
      · exact ih y y (by simp)
      · exact le_trans (ih x x (by simp)) (le_of_not_lt hs)
      · exact ih x y (by simp [hy])

theorem pyMinKey_split (f : ℚ → ℚ) (x : ℚ) (xs : List ℚ) :
    ∃ l₁ l₂, x :: xs = l₁ ++ pyMinKey f x xs :: l₂ ∧
      ∀ y ∈ l₁, f (pyMinKey f x xs) < f y := by
  induction xs generalizing x with
  | nil => exact ⟨[], [], by simp [pyMinKey], by simp⟩
  | cons s t ih =>
    rw [pyMinKey_cons]
    by_cases hs : f s < f x
    · rw [if_pos hs]
      obtain ⟨l₁, l₂, heq, hlt⟩ := ih s
      refine ⟨x :: l₁, l₂, by simp [heq], ?_⟩
      intro y hy
      rcases List.mem_cons.1 hy with rfl | hy
      · calc f (pyMinKey f s t) ≤ f s := pyMinKey_le f s t s (by simp)
          _ < f y := hs
      · exact hlt y hy
    · rw [if_neg hs]
      obtain ⟨l₁, l₂, heq, hlt⟩ := ih x
      cases l₁ with
      | nil =>
        simp only [List.nil_append, List.cons.injEq] at heq
        refine ⟨[], s :: t, ?_, by simp⟩
        rw [List.nil_append, ← heq.1]
      | cons a l₁' =>
        simp only [List.cons_append, List.cons.injEq] at heq
        have hxa : f (pyMinKey f x t) < f x := by
          have := hlt a (by simp)
          rwa [← heq.1] at this
        refine ⟨x :: s :: l₁', l₂, ?_, ?_⟩
        · conv_lhs => rw [heq.2]
          simp
        · intro y hy
          simp only [List.mem_cons] at hy
          rcases hy with rfl | rfl | hy
          · exact hxa
          · exact lt_of_lt_of_le hxa (le_of_not_lt hs)
          · exact hlt y (by simp [hy])

/-! ### `src/utils/helpers.py` -/

/-- Embeds `find_atm_strike` (helpers.py lines 24–37):
`min(strikes, key=lambda s: abs(s - spot_price))`. The Python function
raises `ValueError` on an empty list; this is modelled as `none`. -/
def find_atm_strike (spot_price : ℚ) (strikes : List ℚ) : Option ℚ :=
  match strikes with
  | [] => none
  | x :: xs => some (pyMinKey (fun s => |s - spot_price|) x xs)

/-- Embeds `compute_max_contracts` (helpers.py lines 40–70). The Python
defaults `brokerage_per_order=20.0`, `orders_required=2` are passed
explicitly. `math.floor` on a float is `Int.floor` on `ℚ`. -/
def compute_max_contracts (capital risk_pct net_debit : ℚ) (lot_size : ℤ)
    (brokerage_per_order : ℚ) (orders_required : ℤ) : ℤ :=
  if net_debit ≤ 0 ∨ lot_size ≤ 0 then 0
  else
    let risk_amount := capital * risk_pct
    let per_contract_risk := net_debit * (lot_size : ℚ)
    let total_brokerage := brokerage_per_order * (orders_required : ℚ)
    max 0 ⌊(risk_amount - total_brokerage) / per_contract_risk⌋

/-! ### `src/strategies/base.py` data model -/

inductive OrderSide where
  | BUY
  | SELL
deriving DecidableEq, Repr

inductive OrderType where
  | MARKET
  | LIMIT
deriving DecidableEq, Repr

/-- Embeds the `Order` dataclass of base.py. -/
structure Order where
  symbol : String
  exchange : String
  side : OrderSide
  quantity : ℤ
  order_type : OrderType
  price : Option ℚ
  segment : String
  product : String
deriving DecidableEq, Repr

/-- A Python `datetime`, restricted to the fields the engine reads. -/
structure DateTime where
  year : ℕ
  month : ℕ
  day : ℕ
  hour : ℕ
  minute : ℕ
deriving DecidableEq, Repr

/-- The calendar day of a timestamp (`timestamp.strftime("%Y-%m-%d")`). -/
def dateOf (t : DateTime) : ℕ × ℕ × ℕ := (t.year, t.month, t.day)

/-- Embeds the `MarketData` dataclass of base.py. The `option_chain` dict is
represented by its `"calls"` entry, the only key the strategy reads
(a missing key and an empty list are both the falsy empty chain). -/
structure MarketData where
  underlying : String
  spot_price : ℚ
  timestamp : DateTime
  calls : List String
deriving DecidableEq, Repr

/-! ### `src/strategies/bull_call_spread.py` -/

/-- The mutable state of `BullCallSpreadStrategy`: configuration read in
`__init__` plus the per-day entry bookkeeping. -/
structure BullCallSpreadStrategy where
  spread_width : ℚ
  entry_hour : ℕ
  entry_min : ℕ
  exit_hour : ℕ
  exit_min : ℕ
  entered_today : Bool
  current_date : Option (ℕ × ℕ × ℕ)
  buy_symbol : Option String
  sell_symbol : Option String
deriving DecidableEq, Repr

/-- Embeds `BullCallSpreadStrategy._is_entry_time` (lines 60–66). -/
def BullCallSpreadStrategy.is_entry_time (st : BullCallSpreadStrategy)
    (t : DateTime) : Bool :=
  t.hour == st.entry_hour && st.entry_min ≤ t.minute &&
    t.minute < st.entry_min + 5

/-- Embeds `BullCallSpreadStrategy._reset_for_new_day` (lines 75–81). -/
def BullCallSpreadStrategy.reset_for_new_day (st : BullCallSpreadStrategy)
    (date : ℕ × ℕ × ℕ) : BullCallSpreadStrategy :=
  if st.current_date ≠ some date then
    { st with
      current_date := some date
      entered_today := false
      buy_symbol := none
      sell_symbol := none }
  else st

/-- Embeds `BullCallSpreadStrategy.should_enter` (lines 83–102), returning
the decision together with the updated state (the method mutates the per-day
state through `_reset_for_new_day`). `not market_data.spot_price or
market_data.spot_price <= 0` is `spot = 0 ∨ spot ≤ 0` on `ℚ`. -/
def BullCallSpreadStrategy.should_enter (st : BullCallSpreadStrategy)
    (md : MarketData) : Bool × BullCallSpreadStrategy :=
  let st1 := st.reset_for_new_day (dateOf md.timestamp)
  if st1.entered_today then (false, st1)
  else if ¬ st1.is_entry_time md.timestamp then (false, st1)
  else if md.spot_price = 0 ∨ md.spot_price ≤ 0 then (false, st1)
  else if md.calls.isEmpty then (false, st1)
  else (true, st1)

/-- Embeds the strike-selection core of
`BullCallSpreadStrategy.get_entry_orders` (lines 109–132). The numeric
strikes extracted from the call-contract symbols are taken as the input
list (the set built by the extraction loop), `sorted(list(strikes))` is
`insertionSort` of `dedup`, and `min(..., key=...)` is `pyMinKey`. Returns
`(buy_strike, sell_strike)`, or `none` when no strike is available (the
method then returns no orders). -/
def select_strikes (spot_price : ℚ) (strikes : List ℚ) (spread_width : ℚ) :
    Option (ℚ × ℚ) :=
  if strikes.isEmpty then none
  else
    let strikes_list := (strikes.dedup).insertionSort (· ≤ ·)
    match find_atm_strike spot_price strikes_list with
    | none => none
    | some buy_strike =>
      let target := buy_strike + spread_width
      let sell_strike :=
        if target ∈ strikes then target
        else
          match strikes_list.filter (fun s => buy_strike < s) with
          | [] => target
          | h :: t => pyMinKey (fun s => |s - target|) h t
      some (buy_strike, sell_strike)

/-! ### `src/execution/position_manager.py`

The spread identifier `f"SPREAD_{n}"` is represented by its numeric suffix
`n`: the prefix is a constant, so the Python strings are in bijection with
the counters and the dict keyed by those strings behaves exactly like a
dict keyed by the counters. -/

/-- Embeds the `SpreadPosition` dataclass (position_manager.py lines
17–55). -/
structure SpreadPosition where
  spread_id : ℕ
  underlying : String
  strategy_name : String
  long_symbol : String
  short_symbol : String
  long_price : ℚ
  short_price : ℚ
  quantity : ℤ
  lot_size : ℤ
  entry_time : ℕ
  exit_time : Option ℕ
  exit_long_price : ℚ
  exit_short_price : ℚ
  realized_pnl : ℚ
  brokerage : ℚ
deriving DecidableEq, Repr

/-- Property `net_debit`: `long_price - short_price`. -/
def SpreadPosition.net_debit (p : SpreadPosition) : ℚ :=
  p.long_price - p.short_price

/-- Property `total_cost`: `net_debit * quantity * lot_size`. -/
def SpreadPosition.total_cost (p : SpreadPosition) : ℚ :=
  p.net_debit * (p.quantity : ℚ) * (p.lot_size : ℚ)

/-- Property `is_open`: `exit_time is None`. -/
def SpreadPosition.is_open (p : SpreadPosition) : Bool :=
  p.exit_time.isNone

/-- Embeds `SpreadPosition.close` (lines 57–87); `datetime.now()` is the
explicit `now`. Returns the mutated position and the realized P&L. -/
def SpreadPosition.close (p : SpreadPosition) (now : ℕ)
    (exit_long exit_short brokerage : ℚ) : SpreadPosition × ℚ :=
  let total_brokerage := p.brokerage + brokerage
  let entry_value := (p.long_price - p.short_price) * (p.quantity : ℚ) *
    (p.lot_size : ℚ)
  let exit_value := (exit_long - exit_short) * (p.quantity : ℚ) *
    (p.lot_size : ℚ)
  let gross_pnl := exit_value - entry_value
  let pnl := gross_pnl - total_brokerage
  ({ p with
      exit_time := some now
      exit_long_price := exit_long
      exit_short_price := exit_short
      brokerage := total_brokerage
      realized_pnl := pnl }, pnl)

/-- Embeds the `PositionManager` state (lines 111–117): `_positions` is the
dict of open positions, `_closed_positions` the closed list. -/
structure PositionManager where
  positions : List (ℕ × SpreadPosition)
  closed_positions : List SpreadPosition
  position_counter : ℕ
deriving DecidableEq, Repr

/-- The state built by `PositionManager.__init__`. -/
def PositionManager.initial : PositionManager :=
  { positions := [], closed_positions := [], position_counter := 0 }

/-- Embeds `PositionManager.open_spread` (lines 119–168). -/
def PositionManager.open_spread (m : PositionManager) (now : ℕ)
    (underlying strategy_name long_symbol short_symbol : String)
    (long_price short_price : ℚ) (quantity lot_size : ℤ) (brokerage : ℚ) :
    PositionManager × SpreadPosition :=
  let n := m.position_counter + 1
  let p : SpreadPosition :=
    { spread_id := n
      underlying := underlying
      strategy_name := strategy_name
      long_symbol := long_symbol
      short_symbol := short_symbol
      long_price := long_price
      short_price := short_price
      quantity := quantity
      lot_size := lot_size
      entry_time := now
      exit_time := none
      exit_long_price := 0
      exit_short_price := 0
      realized_pnl := 0
      brokerage := brokerage }
  ({ m with
      positions := dictSet n p m.positions
      position_counter := n }, p)

/-- Embeds `PositionManager.close_spread` (lines 170–200): looks the spread
up, returns the `None` sentinel when absent, otherwise closes the position,
deletes it from the open dict and appends it to the closed list. -/
def PositionManager.close_spread (m : PositionManager) (spread_id : ℕ)
    (now : ℕ) (exit_long exit_short brokerage : ℚ) :
    Option ℚ × PositionManager :=
  match dictGet spread_id m.positions with
  | none => (none, m)
  | some p =>
    let closed := p.close now exit_long exit_short brokerage
    (some closed.2,
      { m with
        positions := dictDel spread_id m.positions
        closed_positions := m.closed_positions ++ [closed.1] })

/-- Embeds `PositionManager.get_open_positions`. -/
def PositionManager.get_open_positions (m : PositionManager) :
    List SpreadPosition :=
  m.positions.map Prod.snd

/-- Embeds `PositionManager.get_closed_positions`. -/
def PositionManager.get_closed_positions (m : PositionManager) :
    List SpreadPosition :=
  m.closed_positions

/-- One call into the `PositionManager` interface, for reasoning about
every state the manager can reach during a session. -/
inductive PMOp where
  | openOp (now : ℕ) (underlying strategy_name long_symbol short_symbol :
      String) (long_price short_price : ℚ) (quantity lot_size : ℤ)
      (brokerage : ℚ)
  | closeOp (spread_id now : ℕ) (exit_long exit_short brokerage : ℚ)

/-- Applies one manager call to the state. -/
def PositionManager.step (m : PositionManager) : PMOp → PositionManager
  | .openOp now u sn ls ss lp sp q lsz b =>
    (m.open_spread now u sn ls ss lp sp q lsz b).1
  | .closeOp sid now el es b => (m.close_spread sid now el es b).2

/-- The manager state after a sequence of calls on a fresh manager. -/
def PositionManager.run (ops : List PMOp) : PositionManager :=
  ops.foldl PositionManager.step PositionManager.initial

/-- The identifiers in the open dict and the closed list together. -/
def PositionManager.allIds (m : PositionManager) : List ℕ :=
  m.positions.map Prod.fst ++ m.closed_positions.map SpreadPosition.spread_id

/-- The identifiers `1, …, position_counter` handed out so far. -/
def PositionManager.openedIds (m : PositionManager) : List ℕ :=
  (List.range m.position_counter).map (· + 1)

/-! ### `src/execution/order_manager.py` -/

inductive OrderStatus where
  | PENDING
  | PLACED
  | FILLED
  | PARTIALLY_FILLED
  | CANCELLED
  | REJECTED
  | SIMULATED
deriving DecidableEq, Repr

/-- Embeds the `OrderRecord` dataclass (order_manager.py lines 30–40). -/
structure OrderRecord where
  order : Order
  order_id : Option String
  status : OrderStatus
  fill_price : Option ℚ
  fill_quantity : ℤ
  placed_at : Option ℕ
  filled_at : Option ℕ
  rejection_reason : Option String
deriving DecidableEq, Repr

/-- Embeds the `OrderManager` state (lines 46–49): the order-record dict
keyed by `order_id` (which can be `None` for a live response without an
id) and the synthetic-id counter. -/
structure OrderManager where
  orders : List (Option String × OrderRecord)
  order_counter : ℕ
deriving DecidableEq, Repr

/-- The state built by `OrderManager.__init__`. -/
def OrderManager.initial : OrderManager :=
  { orders := [], order_counter := 0 }

/-- Embeds `OrderManager.place_order` (lines 51–101). `settings.mode` is
the `mode` argument; the `MarketGateway` call `client.place_order` is the
`gateway` function, whose raised exception (text `e`) is `Except.error e`
and whose returned `response.get("order_id")` is the payload of
`Except.ok`. In paper mode no gateway call is made; in live mode a gateway
exception is caught and turned into a `REJECTED` record that is NOT stored
in the dict (the `self._orders[...] = record` assignment sits inside the
`try` block, after the raising call). The function is total: no exception
escapes. -/
def OrderManager.place_order (mode : String)
    (gateway : Order → Except String (Option String)) (m : OrderManager)
    (o : Order) (now : ℕ) : OrderManager × OrderRecord :=
  let n := m.order_counter + 1
  let record : OrderRecord :=
    { order := o
      order_id := none
      status := .PENDING
      fill_price := none
      fill_quantity := 0
      placed_at := some now
      filled_at := none
      rejection_reason := none }
  if mode = "PAPER" then
    let record :=
      { record with
          order_id := some ("PAPER_" ++ toString n)
          status := .SIMULATED
          fill_quantity := o.quantity
          filled_at := some now }
    ({ orders := dictSet record.order_id record m.orders
       order_counter := n }, record)
  else
    match gateway o with
    | .ok oid =>
      let record := { record with order_id := oid, status := .PLACED }
      ({ orders := dictSet record.order_id record m.orders
         order_counter := n }, record)
    | .error e =>
      let record :=
        { record with status := .REJECTED, rejection_reason := some e }
      ({ m with order_counter := n }, record)

/-- Embeds `OrderManager.get_order_status` (lines 111–113). -/
def OrderManager.get_order_status (m : OrderManager) (order_id : String) :
    Option OrderRecord :=
  dictGet (some order_id) m.orders

/-- Embeds `OrderManager.get_all_orders` (lines 115–117). -/
def OrderManager.get_all_orders (m : OrderManager) : List OrderRecord :=
  m.orders.map Prod.snd

/-! ### `src/engine/backtester.py` — weekly expiries

A date is represented by a day number counted from an arbitrary Monday, so
that Python's `date.weekday()` (Monday = 0 … Sunday = 6, Thursday = 3) is
`d % 7`; adding `timedelta(days=k)` is adding `k`. -/

/-- The generating loop of `calculate_weekly_expiries`: appends `current`
and steps by 7 days while `current <= end_buffer`. -/
def collectThursdays (current bound : ℕ) : List ℕ :=
  if current ≤ bound then current :: collectThursdays (current + 7) bound
  else []
termination_by bound + 1 - current
decreasing_by omega

/-- Embeds `calculate_weekly_expiries` (backtester.py lines 20–60): buffers
the end by 60 days, advances `start` by `(3 - start.weekday()) % 7` days to
the first Thursday on or after it (Python `%` on ints agrees with `Int.emod`
for a positive modulus), then collects every 7th day up to the buffered
end. -/
def calculate_weekly_expiries (from_date to_date : ℕ) : List ℕ :=
  let end_buffer := to_date + 60
  let days_until_thursday := ((3 - (from_date : ℤ) % 7) % 7).toNat
  collectThursdays (from_date + days_until_thursday) end_buffer

/-! ### Claims -/

/-- C2: for every `PositionManager` state and every spread identifier not
present in the open-position dict, `close_spread` returns the not-found
sentinel `None`, raises no exception (the embedding is a total function),
and leaves the whole state — in particular both position collections —
unchanged. -/
theorem C2_close_spread_unknown_id (m : PositionManager)
    (spread_id now : ℕ) (exit_long exit_short brokerage : ℚ)
    (h : spread_id ∉ m.positions.map Prod.fst) :
    m.close_spread spread_id now exit_long exit_short brokerage = (none, m) := by
  have hg : dictGet spread_id m.positions = none :=
    (dictGet_eq_none_iff spread_id m.positions).2 h
  simp [PositionManager.close_spread, hg]

/-- Witness for C2: closing the unknown id 7 on a manager holding one open
spread (id 1) returns the sentinel and leaves the manager unchanged. -/
theorem C2_close_spread_unknown_id_witness :
    (7 ∉ ((PositionManager.initial.open_spread 10 "NIFTY" "BullCallSpread"
        "L" "S" 5 3 1 1 0).1.positions.map Prod.fst)) ∧
    ((PositionManager.initial.open_spread 10 "NIFTY" "BullCallSpread"
        "L" "S" 5 3 1 1 0).1.close_spread 7 20 6 3 0 =
      (none, (PositionManager.initial.open_spread 10 "NIFTY"
        "BullCallSpread" "L" "S" 5 3 1 1 0).1)) := by
  constructor
  · decide
  · exact C2_close_spread_unknown_id _ 7 20 6 3 0 (by decide)

/-- C4: `compute_max_contracts` returns 0 whenever `net_debit ≤ 0` or
`lot_size ≤ 0`; otherwise it returns
`max 0 ⌊(capital·risk_pct − brokerage_per_order·orders_required) /
(net_debit·lot_size)⌋`; and on Scenario B (capital 100000, risk 2%,
net debit 50, lot size 25, brokerage 20, two orders) it returns 1. -/
theorem C4_compute_max_contracts_spec :
    (∀ capital risk_pct net_debit : ℚ, ∀ lot_size : ℤ,
      ∀ brokerage_per_order : ℚ, ∀ orders_required : ℤ,
      net_debit ≤ 0 ∨ lot_size ≤ 0 →
      compute_max_contracts capital risk_pct net_debit lot_size
        brokerage_per_order orders_required = 0) ∧
    (∀ capital risk_pct net_debit : ℚ, ∀ lot_size : ℤ,
      ∀ brokerage_per_order : ℚ, ∀ orders_required : ℤ,
      0 < net_debit → 0 < lot_size →
      compute_max_contracts capital risk_pct net_debit lot_size
        brokerage_per_order orders_required =
        max 0 ⌊(capital * risk_pct -
          brokerage_per_order * (orders_required : ℚ)) /
          (net_debit * (lot_size : ℚ))⌋) ∧
    compute_max_contracts 100000 (2/100) 50 25 20 2 = 1 := by
  refine ⟨?_, ?_, ?_⟩
  · intro capital risk_pct net_debit lot_size b o h
    simp [compute_max_contracts, h]
  · intro capital risk_pct net_debit lot_size b o h1 h2
    rw [compute_max_contracts, if_neg (by push_neg; exact ⟨h1, h2⟩)]
  · have hfl : ⌊((100000 * (2/100) - 20 * (2:ℚ)) / (50 * (25:ℚ)) : ℚ)⌋ = 1 := by
      rw [Int.floor_eq_iff]
      norm_num
    rw [compute_max_contracts, if_neg (by norm_num)]
    push_cast at hfl ⊢
    rw [hfl]
    norm_num

/-- Witness for C4: the zero branch at `net_debit = -1` and the general
formula at Scenario B's parameters. -/
theorem C4_compute_max_contracts_spec_witness :
    compute_max_contracts 100000 (2/100) (-1) 25 20 2 = 0 ∧
    compute_max_contracts 100000 (2/100) 50 25 20 2 =
      max 0 ⌊((100000 * (2/100) - 20 * (2:ℚ)) / (50 * (25:ℚ)) : ℚ)⌋ := by
  constructor
  · exact C4_compute_max_contracts_spec.1 100000 (2/100) (-1) 25 20 2
      (Or.inl (by norm_num))
  · have h := C4_compute_max_contracts_spec.2.1 100000 (2/100) 50 25 20 2
      (by norm_num) (by norm_num)
    simpa using h

/-- C9 counterexample: as stated — quantifying over arbitrary fixed
`risk_pct` — monotonicity in capital fails: with `risk_pct = -1`,
`net_debit = 1`, `lot_size = 1`, no brokerage, capital −5 ≤ 0 yields 5 > 0
contracts. -/
theorem C9_not_monotone_for_negative_risk_pct :
    (-5 : ℚ) ≤ 0 ∧
    compute_max_contracts (-5) (-1) 1 1 0 0 = 5 ∧
    compute_max_contracts 0 (-1) 1 1 0 0 = 0 ∧
    ¬ compute_max_contracts (-5) (-1) 1 1 0 0 ≤
        compute_max_contracts 0 (-1) 1 1 0 0 := by
  have h1 : compute_max_contracts (-5) (-1) 1 1 0 0 = 5 := by
    rw [compute_max_contracts, if_neg (by norm_num)]
    norm_num
  have h2 : compute_max_contracts 0 (-1) 1 1 0 0 = 0 := by
    rw [compute_max_contracts, if_neg (by norm_num)]
    norm_num
  refine ⟨by norm_num, h1, h2, ?_⟩
  rw [h1, h2]
  norm_num

/-- C9 (amended): for fixed NON-NEGATIVE `risk_pct` and fixed `net_debit`,
`lot_size`, `brokerage_per_order`, `orders_required`,
`compute_max_contracts` is monotonically non-decreasing in capital. -/
theorem C9_monotone_in_capital (capital₁ capital₂ risk_pct net_debit : ℚ)
    (lot_size : ℤ) (brokerage_per_order : ℚ) (orders_required : ℤ)
    (hr : 0 ≤ risk_pct) (hc : capital₁ ≤ capital₂) :
    compute_max_contracts capital₁ risk_pct net_debit lot_size
      brokerage_per_order orders_required ≤
    compute_max_contracts capital₂ risk_pct net_debit lot_size
      brokerage_per_order orders_required := by
  by_cases h : net_debit ≤ 0 ∨ lot_size ≤ 0
  · simp [compute_max_contracts, h]
  · push_neg at h
    rw [compute_max_contracts, if_neg (by push_neg; exact h),
      compute_max_contracts, if_neg (by push_neg; exact h)]
    have hdl : (0 : ℚ) < net_debit * (lot_size : ℚ) :=
      mul_pos h.1 (by exact_mod_cast h.2)
    refine max_le_max (le_refl 0) (Int.floor_mono ?_)
    refine (div_le_div_iff_of_pos_right hdl).2 ?_
    exact sub_le_sub_right (mul_le_mul_of_nonneg_right hc hr) _

/-- Witness for C9 (amended): monotonicity at Scenario B's parameters for
capitals 50000 ≤ 100000. -/
theorem C9_monotone_in_capital_witness :
    compute_max_contracts 50000 (2/100) 50 25 20 2 ≤
    compute_max_contracts 100000 (2/100) 50 25 20 2 :=
  C9_monotone_in_capital 50000 100000 (2/100) 50 25 20 2 (by norm_num)
    (by norm_num)

/-- C8: on every non-empty strike list, `find_atm_strike` returns an
element of the list at minimal absolute distance to the spot; when the
list is ascending (the order in which the callers supply it), a tie goes
to the first — i.e. the smallest — of the equidistant strikes. -/
theorem C8_find_atm_strike_spec (spot : ℚ) (strikes : List ℚ)
    (hne : strikes ≠ []) :
    ∃ r, find_atm_strike spot strikes = some r ∧ r ∈ strikes ∧
      (∀ t ∈ strikes, |r - spot| ≤ |t - spot|) ∧
      (strikes.Sorted (· ≤ ·) →
        ∀ t ∈ strikes, |t - spot| = |r - spot| → r ≤ t) := by
  match strikes, hne with
  | x :: xs, _ =>
    refine ⟨pyMinKey (fun s => |s - spot|) x xs, rfl,
      pyMinKey_mem _ x xs, pyMinKey_le _ x xs, ?_⟩
    intro hsort t ht habs
    obtain ⟨l₁, l₂, heq, hlt⟩ := pyMinKey_split (fun s => |s - spot|) x xs
    rw [heq] at ht hsort
    rcases List.mem_append.1 ht with ht | ht
    · exact absurd habs.symm (ne_of_lt (hlt t ht))
    · rcases List.mem_cons.1 ht with rfl | ht
      · exact le_refl _
      · exact List.rel_of_sorted_cons ((List.pairwise_append.1 hsort).2.1) t ht

/-- Witness for C8: on the ascending list [23900, 24100] with spot 24000
both strikes are equidistant and the function returns the first, 23900. -/
theorem C8_find_atm_strike_spec_witness :
    ∃ r, find_atm_strike 24000 [23900, 24100] = some r ∧
      r ∈ ([23900, 24100] : List ℚ) ∧
      (∀ t ∈ ([23900, 24100] : List ℚ), |r - 24000| ≤ |t - 24000|) ∧
      (([23900, 24100] : List ℚ).Sorted (· ≤ ·) →
        ∀ t ∈ ([23900, 24100] : List ℚ), |t - 24000| = |r - 24000| →
          r ≤ t) :=
  C8_find_atm_strike_spec 24000 [23900, 24100] (by simp)

/-! ### Thursday-enumeration lemmas for C7 -/

theorem collectThursdays_eq (c b : ℕ) :
    collectThursdays c b =
      if c ≤ b then c :: collectThursdays (c + 7) b else [] := by
  rw [collectThursdays]

theorem mem_collectThursdays_fuel (d : ℕ) :
    ∀ fuel c b, b + 1 - c ≤ fuel →
      (d ∈ collectThursdays c b ↔ c ≤ d ∧ d ≤ b ∧ d % 7 = c % 7) := by
  intro fuel
  induction fuel with
  | zero =>
    intro c b hf
    rw [collectThursdays_eq, if_neg (by omega)]
    simp only [List.not_mem_nil, false_iff]
    omega
  | succ n ih =>
    intro c b hf
    rw [collectThursdays_eq]
    by_cases hcb : c ≤ b
    · rw [if_pos hcb]
      rw [List.mem_cons, ih (c + 7) b (by omega)]
      omega
    · rw [if_neg hcb]
      simp only [List.not_mem_nil, false_iff]
      omega

theorem mem_collectThursdays (d c b : ℕ) :
    d ∈ collectThursdays c b ↔ c ≤ d ∧ d ≤ b ∧ d % 7 = c % 7 :=
  mem_collectThursdays_fuel d (b + 1 - c) c b (le_refl _)

theorem sorted_collectThursdays :
    ∀ fuel c b, b + 1 - c ≤ fuel →
      List.Sorted (· < ·) (collectThursdays c b) := by
  intro fuel
  induction fuel with
  | zero =>
    intro c b hf
    rw [collectThursdays_eq, if_neg (by omega)]
    exact List.sorted_nil
  | succ n ih =>
    intro c b hf
    rw [collectThursdays_eq]
    by_cases hcb : c ≤ b
    · rw [if_pos hcb]
      rw [List.sorted_cons]
      refine ⟨?_, ih (c + 7) b (by omega)⟩
      intro y hy
      have := (mem_collectThursdays y (c + 7) b).1 hy
      omega
    · rw [if_neg hcb]
      exact List.sorted_nil

/-- C7: for every date pair with `from_date ≤ to_date` (dates are day
numbers counted from a Monday, so Thursday means `d % 7 = 3`),
`calculate_weekly_expiries` returns a strictly ascending list that
contains exactly the Thursdays of `[from_date, to_date + 60]` — so it
consists only of Thursdays, starts at the first Thursday on or after
`from_date`, and extends through 60 days past `to_date`. -/
theorem C7_calculate_weekly_expiries_spec (from_date to_date : ℕ)
    (h : from_date ≤ to_date) :
    List.Sorted (· < ·) (calculate_weekly_expiries from_date to_date) ∧
    (∀ d, d ∈ calculate_weekly_expiries from_date to_date ↔
      d % 7 = 3 ∧ from_date ≤ d ∧ d ≤ to_date + 60) ∧
    (∃ f, (calculate_weekly_expiries from_date to_date).head? = some f ∧
      f % 7 = 3 ∧ from_date ≤ f ∧
      ∀ d, d % 7 = 3 → from_date ≤ d → f ≤ d) := by
  have hoff : (from_date + ((3 - (from_date : ℤ) % 7) % 7).toNat) % 7 = 3 ∧
      ((3 - (from_date : ℤ) % 7) % 7).toNat < 7 := by omega
  refine ⟨?_, ?_, ?_⟩
  · exact sorted_collectThursdays _ _ _ (le_refl _)
  · intro d
    rw [calculate_weekly_expiries]
    rw [mem_collectThursdays]
    omega
  · refine ⟨from_date + ((3 - (from_date : ℤ) % 7) % 7).toNat, ?_, ?_, ?_, ?_⟩
    · rw [calculate_weekly_expiries]
      rw [collectThursdays_eq, if_pos (by omega)]
      rfl
    · exact hoff.1
    · omega
    · intro d hd hfd
      omega

/-- Witness for C7: the expiry list for the pair (2, 9) — a Wednesday start
in the day-number convention — begins at Thursday 3 and is the ascending
list of all Thursdays up to 69. -/
theorem C7_calculate_weekly_expiries_spec_witness :
    List.Sorted (· < ·) (calculate_weekly_expiries 2 9) ∧
    (∀ d, d ∈ calculate_weekly_expiries 2 9 ↔
      d % 7 = 3 ∧ 2 ≤ d ∧ d ≤ 9 + 60) ∧
    (∃ f, (calculate_weekly_expiries 2 9).head? = some f ∧
      f % 7 = 3 ∧ 2 ≤ f ∧ ∀ d, d % 7 = 3 → 2 ≤ d → f ≤ d) :=
  C7_calculate_weekly_expiries_spec 2 9 (by norm_num)

/-- C6: when no entry has been made on the snapshot's calendar day (the
flag is clear, or the stored date differs so the per-day reset fires),
`should_enter` returns true iff the hour equals the configured entry hour,
the minute lies in `[entry_min, entry_min + 5)`, the spot price is
strictly positive and at least one call contract is present; and it always
returns false when an entry was already made on that calendar day. -/
theorem C6_should_enter_spec (st : BullCallSpreadStrategy)
    (md : MarketData) :
    (st.current_date = some (dateOf md.timestamp) →
      st.entered_today = true → (st.should_enter md).1 = false) ∧
    ((st.entered_today = false ∨
        st.current_date ≠ some (dateOf md.timestamp)) →
      ((st.should_enter md).1 = true ↔
        (md.timestamp.hour = st.entry_hour ∧
         st.entry_min ≤ md.timestamp.minute ∧
         md.timestamp.minute < st.entry_min + 5 ∧
         0 < md.spot_price ∧ md.calls ≠ []))) := by
  constructor
  · intro hdate hentered
    have hres : st.reset_for_new_day (dateOf md.timestamp) = st := by
      rw [BullCallSpreadStrategy.reset_for_new_day, if_neg (by simp [hdate])]
    simp [BullCallSpreadStrategy.should_enter, hres, hentered]
  · intro hfresh
    have hst1 : (st.reset_for_new_day (dateOf md.timestamp)).entered_today =
        false ∧
        (st.reset_for_new_day (dateOf md.timestamp)).entry_hour =
          st.entry_hour ∧
        (st.reset_for_new_day (dateOf md.timestamp)).entry_min =
          st.entry_min := by
      rw [BullCallSpreadStrategy.reset_for_new_day]
      rcases hfresh with hfresh | hfresh
      · split <;> simp [hfresh]
      · rw [if_pos hfresh]
        exact ⟨rfl, rfl, rfl⟩
    rw [BullCallSpreadStrategy.should_enter]
    rw [if_neg (by simp [hst1.1])]
    by_cases hti : (st.reset_for_new_day (dateOf md.timestamp)).is_entry_time
        md.timestamp = true
    · rw [if_neg (not_not_intro hti)]
      rw [BullCallSpreadStrategy.is_entry_time, hst1.2.1, hst1.2.2] at hti
      simp only [Bool.and_eq_true, beq_iff_eq, decide_eq_true_eq] at hti
      by_cases hspot : md.spot_price = 0 ∨ md.spot_price ≤ 0
      · rw [if_pos hspot]
        simp only [Bool.false_eq_true, false_iff]
        rintro ⟨-, -, -, h4, -⟩
        rcases hspot with hspot | hspot
        · rw [hspot] at h4
          exact absurd h4 (lt_irrefl 0)
        · exact absurd h4 (not_lt.2 hspot)
      · rw [if_neg hspot]
        push_neg at hspot
        by_cases hcalls : md.calls.isEmpty
        · rw [if_pos hcalls]
          simp only [Bool.false_eq_true, false_iff]
          rintro ⟨-, -, -, -, h5⟩
          exact h5 (List.isEmpty_iff.1 hcalls)
        · rw [if_neg hcalls]
          simp only [true_iff]
          refine ⟨hti.1.1, hti.1.2, hti.2, hspot.2,
            fun hnil => hcalls (by simp [hnil])⟩
    · rw [if_pos hti]
      simp only [Bool.false_eq_true, false_iff]
      rintro ⟨h1, h2, h3, -, -⟩
      apply hti
      rw [BullCallSpreadStrategy.is_entry_time, hst1.2.1, hst1.2.2]
      simp [h1, h2, h3]

/-- Witness for C6: a fresh strategy (entry window 09:25) on a snapshot at
09:27 with positive spot and one call contract enters; the same check with
the entered-today flag set for that day refuses. -/
theorem C6_should_enter_spec_witness :
    (((⟨300, 9, 25, 15, 20, false, none, none, none⟩ :
        BullCallSpreadStrategy).should_enter
      (⟨"NIFTY", 24000, ⟨2025, 1, 2, 9, 27⟩,
        ["NSE-NIFTY-02Jan25-24000-CE"]⟩ : MarketData)).1 = true) ∧
    (((⟨300, 9, 25, 15, 20, true, some (2025, 1, 2), none, none⟩ :
        BullCallSpreadStrategy).should_enter
      (⟨"NIFTY", 24000, ⟨2025, 1, 2, 9, 27⟩,
        ["NSE-NIFTY-02Jan25-24000-CE"]⟩ : MarketData)).1 = false) := by
  constructor
  · exact ((C6_should_enter_spec _ _).2 (Or.inl rfl)).2
      (by refine ⟨rfl, by norm_num, by norm_num, by norm_num, by simp⟩)
  · exact (C6_should_enter_spec _ _).1 rfl rfl

/-- C3: `place_order` never propagates an exception (the embedding is a
total function for every gateway outcome). In paper mode the returned
record is `SIMULATED` with the synthetic identifier `PAPER_{n}` and a fill
quantity equal to the order's quantity, and the gateway is never
consulted (the result is identical for any two gateways). In live mode a
gateway exception yields a `REJECTED` record carrying the exception text
as the rejection reason. -/
theorem C3_place_order_spec :
    (∀ (gateway : Order → Except String (Option String)) (m : OrderManager)
      (o : Order) (now : ℕ),
      (OrderManager.place_order "PAPER" gateway m o now).2.status =
          .SIMULATED ∧
      (OrderManager.place_order "PAPER" gateway m o now).2.order_id =
          some ("PAPER_" ++ toString (m.order_counter + 1)) ∧
      (OrderManager.place_order "PAPER" gateway m o now).2.fill_quantity =
          o.quantity) ∧
    (∀ (g₁ g₂ : Order → Except String (Option String)) (m : OrderManager)
      (o : Order) (now : ℕ),
      OrderManager.place_order "PAPER" g₁ m o now =
        OrderManager.place_order "PAPER" g₂ m o now) ∧
    (∀ (mode : String) (gateway : Order → Except String (Option String))
      (m : OrderManager) (o : Order) (now : ℕ) (e : String),
      mode ≠ "PAPER" → gateway o = Except.error e →
      (OrderManager.place_order mode gateway m o now).2.status =
          .REJECTED ∧
      (OrderManager.place_order mode gateway m o now).2.rejection_reason =
          some e) := by
  refine ⟨?_, ?_, ?_⟩
  · intro gateway m o now
    simp [OrderManager.place_order]
  · intro g₁ g₂ m o now
    simp [OrderManager.place_order]
  · intro mode gateway m o now e hmode hg
    rw [OrderManager.place_order]
    rw [if_neg hmode, hg]
    exact ⟨rfl, rfl⟩

/-- Witness for C3: a live-mode placement against a gateway that raises
"connection error" yields a rejected record with that reason. -/
theorem C3_place_order_spec_witness :
    (OrderManager.place_order "LIVE" (fun _ => Except.error "connection error")
      OrderManager.initial
      { symbol := "NSE-NIFTY-02Jan25-24000-CE", exchange := "NSE",
        side := .BUY, quantity := 75, order_type := .MARKET, price := none,
        segment := "FNO", product := "INTRADAY" } 5).2.status = .REJECTED ∧
    (OrderManager.place_order "LIVE" (fun _ => Except.error "connection error")
      OrderManager.initial
      { symbol := "NSE-NIFTY-02Jan25-24000-CE", exchange := "NSE",
        side := .BUY, quantity := 75, order_type := .MARKET, price := none,
        segment := "FNO", product := "INTRADAY" } 5).2.rejection_reason =
      some "connection error" :=
  C3_place_order_spec.2.2 "LIVE" _ _ _ 5 "connection error"
    (by decide) rfl

/-- C10: when a live-mode gateway exception is caught, the rejected record
is not inserted into the order table: the table is left unchanged, the
record has no identifier, `get_order_status` answers exactly as before for
every identifier, and `get_all_orders` does not contain the rejected
record (unless an identical record was already present beforehand) — only
the value returned from `place_order` reveals the rejection. -/
theorem C10_rejected_record_not_stored (mode : String)
    (gateway : Order → Except String (Option String)) (m : OrderManager)
    (o : Order) (now : ℕ) (e : String) (hmode : mode ≠ "PAPER")
    (hg : gateway o = Except.error e) :
    (OrderManager.place_order mode gateway m o now).1.orders = m.orders ∧
    (OrderManager.place_order mode gateway m o now).2.order_id = none ∧
    (OrderManager.place_order mode gateway m o now).2.status = .REJECTED ∧
    (∀ oid, (OrderManager.place_order mode gateway m o now).1.get_order_status
        oid = m.get_order_status oid) ∧
    (OrderManager.place_order mode gateway m o now).1.get_all_orders =
        m.get_all_orders ∧
    ((OrderManager.place_order mode gateway m o now).2 ∉ m.get_all_orders →
      (OrderManager.place_order mode gateway m o now).2 ∉
        (OrderManager.place_order mode gateway m o now).1.get_all_orders) := by
  rw [OrderManager.place_order, if_neg hmode, hg]
  exact ⟨rfl, rfl, rfl, fun oid => rfl, rfl, fun h => h⟩

/-- Witness for C10: the rejected record of the C3 witness placement is
invisible through the manager: the table of the fresh manager stays empty
and every status lookup still answers `none`. -/
theorem C10_rejected_record_not_stored_witness :
    (OrderManager.place_order "LIVE" (fun _ => Except.error "connection error")
      OrderManager.initial
      { symbol := "NSE-NIFTY-02Jan25-24100-CE", exchange := "NSE",
        side := .SELL, quantity := 75, order_type := .MARKET, price := none,
        segment := "FNO", product := "INTRADAY" } 5).1.orders =
      OrderManager.initial.orders ∧
    (OrderManager.place_order "LIVE" (fun _ => Except.error "connection error")
      OrderManager.initial
      { symbol := "NSE-NIFTY-02Jan25-24100-CE", exchange := "NSE",
        side := .SELL, quantity := 75, order_type := .MARKET, price := none,
        segment := "FNO", product := "INTRADAY" } 5).2.order_id = none ∧
    (∀ oid, (OrderManager.place_order "LIVE"
        (fun _ => Except.error "connection error") OrderManager.initial
      { symbol := "NSE-NIFTY-02Jan25-24100-CE", exchange := "NSE",
        side := .SELL, quantity := 75, order_type := .MARKET, price := none,
        segment := "FNO", product := "INTRADAY" } 5).1.get_order_status oid =
      OrderManager.initial.get_order_status oid) := by
  have h := C10_rejected_record_not_stored "LIVE"
    (fun _ => Except.error "connection error") OrderManager.initial
    { symbol := "NSE-NIFTY-02Jan25-24100-CE", exchange := "NSE",
      side := .SELL, quantity := 75, order_type := .MARKET, price := none,
      segment := "FNO", product := "INTRADAY" } 5 "connection error"
    (by decide) rfl
  exact ⟨h.1, h.2.1, h.2.2.2.1⟩

/-- Characterisation of `find_atm_strike` on a successful lookup, shared
by the strike-selection proofs. -/
theorem find_atm_strike_spec (spot : ℚ) (l : List ℚ) (r : ℚ)
    (h : find_atm_strike spot l = some r) :
    r ∈ l ∧ ∀ t ∈ l, |r - spot| ≤ |t - spot| := by
  match l with
  | [] => exact absurd h (by simp [find_atm_strike])
  | x :: xs =>
    rw [find_atm_strike, Option.some.injEq] at h
    subst h
    exact ⟨pyMinKey_mem _ x xs, pyMinKey_le _ x xs⟩

/-- C5 counterexample: the short strike is NOT always snapped to the
nearest available strike. With spot 24000, width 300 and strikes
{24000, 24800}, the target 24300 is absent; the nearest available strike
is 24000 (distance 300 versus 500), yet the code — which snaps only among
strikes strictly above the long strike — selects 24800. -/
theorem C5_short_strike_not_nearest_available :
    select_strikes 24000 [24000, 24800] 300 = some (24000, 24800) ∧
    (24000 : ℚ) ∈ ([24000, 24800] : List ℚ) ∧
    |(24000 : ℚ) - (24000 + 300)| < |(24800 : ℚ) - (24000 + 300)| ∧
    (24800 : ℚ) ≠ (24000 : ℚ) := by
  have hded : ([24000, 24800] : List ℚ).dedup = [24000, 24800] :=
    List.dedup_eq_self.2 (by norm_num)
  have hsrt : List.insertionSort (· ≤ ·) ([24000, 24800] : List ℚ) =
      [24000, 24800] :=
    List.Sorted.insertionSort_eq (by norm_num [List.sorted_cons])
  have hatm : find_atm_strike 24000 ([24000, 24800] : List ℚ) =
      some 24000 := by
    norm_num [find_atm_strike, pyMinKey, abs_sub_lt_iff]
  have hfil : ([24000, 24800] : List ℚ).filter
      (fun s => decide ((24000 : ℚ) < s)) = [24800] := by
    norm_num [List.filter]
  refine ⟨?_, by norm_num, by norm_num [abs_sub_lt_iff], by norm_num⟩
  rw [select_strikes]
  rw [if_neg (by norm_num)]
  simp only [hded, hsrt, hatm]
  rw [if_neg (by norm_num)]
  rw [hfil]
  norm_num [pyMinKey]

/-- C5 (amended): on entry the long strike is the available strike nearest
the spot; the short strike is `long + spread_width` when that strike is
available, and otherwise is snapped to the nearest strike among those
STRICTLY ABOVE the long strike (kept un-snapped — and hence matching no
contract — when no higher strike exists); on Scenario A (spot 24000,
width 300, strikes {23800, 23900, 24000, 24100, 24200, 24600}) this gives
long 24000 and short 24200. -/
theorem C5_entry_strike_selection :
    (∀ (spot : ℚ) (strikes : List ℚ) (w b s : ℚ),
      select_strikes spot strikes w = some (b, s) →
      b ∈ strikes ∧ (∀ t ∈ strikes, |b - spot| ≤ |t - spot|) ∧
      (b + w ∈ strikes → s = b + w) ∧
      (b + w ∉ strikes →
        ((∀ t ∈ strikes, ¬ b < t) → s = b + w) ∧
        ((∃ t ∈ strikes, b < t) →
          s ∈ strikes ∧ b < s ∧
          ∀ t ∈ strikes, b < t → |s - (b + w)| ≤ |t - (b + w)|))) ∧
    select_strikes 24000 [23800, 23900, 24000, 24100, 24200, 24600] 300 =
      some (24000, 24200) := by
  constructor
  · intro spot strikes w b s hsel
    rw [select_strikes] at hsel
    by_cases hemp : strikes.isEmpty
    · rw [if_pos hemp] at hsel
      exact absurd hsel (by simp)
    rw [if_neg hemp] at hsel
    simp only at hsel
    have hmemSL : ∀ a : ℚ,
        a ∈ List.insertionSort (· ≤ ·) strikes.dedup ↔ a ∈ strikes := by
      intro a
      rw [(List.perm_insertionSort (· ≤ ·) strikes.dedup).mem_iff]
      exact List.mem_dedup
    cases hatm : find_atm_strike spot
        (List.insertionSort (· ≤ ·) strikes.dedup) with
    | none => rw [hatm] at hsel; exact absurd hsel (by simp)
    | some buy =>
      rw [hatm] at hsel
      rw [Option.some.injEq, Prod.mk.injEq] at hsel
      obtain ⟨hb, hs⟩ := hsel
      subst hb
      obtain ⟨hbmem', hbmin'⟩ := find_atm_strike_spec spot _ buy hatm
      refine ⟨(hmemSL buy).1 hbmem', fun t ht => hbmin' t ((hmemSL t).2 ht),
        ?_, ?_⟩
      · intro hin
        rw [if_pos hin] at hs
        exact hs.symm
      · intro hnotin
        rw [if_neg hnotin] at hs
        constructor
        · intro hno
          have hfil : (List.insertionSort (· ≤ ·) strikes.dedup).filter
              (fun u => decide (buy < u)) = [] := by
            rw [List.filter_eq_nil_iff]
            intro a ha
            simp only [decide_eq_true_eq]
            exact hno a ((hmemSL a).1 ha)
          rw [hfil] at hs
          exact hs.symm
        · rintro ⟨t, ht, hbt⟩
          have htfil : t ∈ (List.insertionSort (· ≤ ·) strikes.dedup).filter
              (fun u => decide (buy < u)) :=
            List.mem_filter.2 ⟨(hmemSL t).2 ht, by simpa using hbt⟩
          cases hfil : (List.insertionSort (· ≤ ·) strikes.dedup).filter
              (fun u => decide (buy < u)) with
          | nil => rw [hfil] at htfil; exact absurd htfil (by simp)
          | cons hh tl =>
            rw [hfil] at hs
            subst hs
            have hsellfil : pyMinKey (fun u => |u - (buy + w)|) hh tl ∈
                (List.insertionSort (· ≤ ·) strikes.dedup).filter
                  (fun u => decide (buy < u)) := by
              rw [hfil]
              exact pyMinKey_mem _ hh tl
            have hsell := List.mem_filter.1 hsellfil
            refine ⟨(hmemSL _).1 hsell.1, by simpa using hsell.2, ?_⟩
            intro u hu hbu
            have hufil : u ∈ (List.insertionSort (· ≤ ·) strikes.dedup).filter
                (fun v => decide (buy < v)) :=
              List.mem_filter.2 ⟨(hmemSL u).2 hu, by simpa using hbu⟩
            rw [hfil] at hufil
            exact pyMinKey_le (fun v => |v - (buy + w)|) hh tl u hufil
  · have hded : ([23800, 23900, 24000, 24100, 24200, 24600] : List ℚ).dedup =
        [23800, 23900, 24000, 24100, 24200, 24600] :=
      List.dedup_eq_self.2 (by norm_num)
    have hsrt : List.insertionSort (· ≤ ·)
        ([23800, 23900, 24000, 24100, 24200, 24600] : List ℚ) =
        [23800, 23900, 24000, 24100, 24200, 24600] :=
      List.Sorted.insertionSort_eq (by norm_num [List.sorted_cons])
    have hatm : find_atm_strike 24000
        ([23800, 23900, 24000, 24100, 24200, 24600] : List ℚ) =
        some 24000 := by
      norm_num [find_atm_strike, pyMinKey, abs_sub_lt_iff]
    have hfil : ([23800, 23900, 24000, 24100, 24200, 24600] : List ℚ).filter
        (fun s => decide ((24000 : ℚ) < s)) = [24100, 24200, 24600] := by
      norm_num [List.filter]
    rw [select_strikes]
    rw [if_neg (by norm_num)]
    simp only [hded, hsrt, hatm]
    rw [if_neg (by norm_num)]
    rw [hfil]
    norm_num [pyMinKey, abs_sub_lt_iff]

/-- Witness for C5 (amended): the characterisation applied to Scenario A's
concrete input, with the `some`-equation discharged by the scenario
conjunct itself. -/
theorem C5_entry_strike_selection_witness :
    (24000 : ℚ) ∈ ([23800, 23900, 24000, 24100, 24200, 24600] : List ℚ) ∧
    (∀ t ∈ ([23800, 23900, 24000, 24100, 24200, 24600] : List ℚ),
      |(24000 : ℚ) - 24000| ≤ |t - 24000|) ∧
    ((24000 : ℚ) + 300 ∈
        ([23800, 23900, 24000, 24100, 24200, 24600] : List ℚ) →
      (24200 : ℚ) = 24000 + 300) ∧
    ((24000 : ℚ) + 300 ∉
        ([23800, 23900, 24000, 24100, 24200, 24600] : List ℚ) →
      ((∀ t ∈ ([23800, 23900, 24000, 24100, 24200, 24600] : List ℚ),
          ¬ (24000 : ℚ) < t) → (24200 : ℚ) = 24000 + 300) ∧
      ((∃ t ∈ ([23800, 23900, 24000, 24100, 24200, 24600] : List ℚ),
          (24000 : ℚ) < t) →
        (24200 : ℚ) ∈ ([23800, 23900, 24000, 24100, 24200, 24600] : List ℚ) ∧
        (24000 : ℚ) < 24200 ∧
        ∀ t ∈ ([23800, 23900, 24000, 24100, 24200, 24600] : List ℚ),
          (24000 : ℚ) < t →
          |(24200 : ℚ) - (24000 + 300)| ≤ |t - (24000 + 300)|)) :=
  C5_entry_strike_selection.1 24000
    [23800, 23900, 24000, 24100, 24200, 24600] 300 24000 24200
    C5_entry_strike_selection.2

/-! ### The PositionManager bookkeeping invariant (for C1) -/

/-- Invariant of every reachable `PositionManager` state: the identifiers
in the open dict and the closed list together are a permutation of the
identifiers handed out so far, and each dict entry's stored position
carries its key as `spread_id`. -/
def PMInv (m : PositionManager) : Prop :=
  List.Perm m.allIds m.openedIds ∧
    ∀ kv ∈ m.positions, kv.2.spread_id = kv.1

theorem openedIds_nodup (m : PositionManager) : m.openedIds.Nodup :=
  List.Nodup.map (fun a b h => by omega) (List.nodup_range _)

theorem pm_inv_initial : PMInv PositionManager.initial := by
  constructor
  · simp [PositionManager.allIds, PositionManager.openedIds,
      PositionManager.initial]
  · simp [PositionManager.initial]

theorem pm_inv_open (m : PositionManager) (hInv : PMInv m) (now : ℕ)
    (u sn ls ss : String) (lp sp : ℚ) (q lsz : ℤ) (b : ℚ) :
    PMInv (m.open_spread now u sn ls ss lp sp q lsz b).1 := by
  obtain ⟨hperm, hfield⟩ := hInv
  have hfresh : (m.position_counter + 1) ∉ m.positions.map Prod.fst := by
    intro hmem
    have hall : (m.position_counter + 1) ∈ m.allIds :=
      List.mem_append_left _ hmem
    have := hperm.mem_iff.1 hall
    simp only [PositionManager.openedIds, List.mem_map,
      List.mem_range] at this
    omega
  have hget : (dictGet (m.position_counter + 1) m.positions).isSome =
      false := by
    rw [(dictGet_eq_none_iff _ _).2 hfresh]
    rfl
  rw [PositionManager.open_spread]
  simp only
  rw [dictSet, if_neg (by rw [hget]; exact Bool.false_ne_true)]
  constructor
  · show List.Perm ((m.positions ++ [_]).map Prod.fst ++
      m.closed_positions.map SpreadPosition.spread_id) _
    rw [List.map_append]
    have e1 : List.Perm
        ((m.positions.map Prod.fst ++ [m.position_counter + 1]) ++
          m.closed_positions.map SpreadPosition.spread_id)
        ((m.positions.map Prod.fst ++
          m.closed_positions.map SpreadPosition.spread_id) ++
          [m.position_counter + 1]) := by
      rw [List.append_assoc, List.append_assoc]
      exact List.Perm.append_left _ List.perm_append_comm
    have e2 : List.Perm
        ((m.positions.map Prod.fst ++
          m.closed_positions.map SpreadPosition.spread_id) ++
          [m.position_counter + 1])
        (m.openedIds ++ [m.position_counter + 1]) :=
      List.Perm.append_right _ hperm
    have e3 : (m.openedIds ++ [m.position_counter + 1]) =
        (List.range (m.position_counter + 1)).map (· + 1) := by
      rw [List.range_succ, List.map_append]
      rfl
    simpa [PositionManager.openedIds] using (e1.trans e2).trans
      (e3 ▸ List.Perm.refl _)
  · intro kv hkv
    rcases List.mem_append.1 hkv with hkv | hkv
    · exact hfield kv hkv
    · simp only [List.mem_singleton] at hkv
      subst hkv
      rfl

theorem pm_inv_close (m : PositionManager) (hInv : PMInv m)
    (sid now : ℕ) (el es b : ℚ) :
    PMInv (m.close_spread sid now el es b).2 := by
  obtain ⟨hperm, hfield⟩ := hInv
  rw [PositionManager.close_spread]
  cases hget : dictGet sid m.positions with
  | none => exact ⟨hperm, hfield⟩
  | some p =>
    simp only
    have hmemk : sid ∈ m.positions.map Prod.fst :=
      List.mem_map.2 ⟨(sid, p), dictGet_mem hget, rfl⟩
    have hkeys : List.Perm (sid :: (dictDel sid m.positions).map Prod.fst)
        (m.positions.map Prod.fst) := (perm_keys_dictDel hmemk).symm
    constructor
    · show List.Perm ((dictDel sid m.positions).map Prod.fst ++
        (m.closed_positions ++ [(p.close now el es b).1]).map
          SpreadPosition.spread_id) _
      have hid : (p.close now el es b).1.spread_id = sid := by
        have := hfield (sid, p) (dictGet_mem hget)
        simpa [SpreadPosition.close] using this
      rw [List.map_append, List.map_singleton, hid]
      have s1 : List.Perm
          ((dictDel sid m.positions).map Prod.fst ++
            (m.closed_positions.map SpreadPosition.spread_id ++ [sid]))
          ((dictDel sid m.positions).map Prod.fst ++
            (sid :: m.closed_positions.map SpreadPosition.spread_id)) :=
        List.Perm.append_left _ List.perm_append_comm
      have s2 : List.Perm
          ((dictDel sid m.positions).map Prod.fst ++
            (sid :: m.closed_positions.map SpreadPosition.spread_id))
          (sid :: ((dictDel sid m.positions).map Prod.fst ++
            m.closed_positions.map SpreadPosition.spread_id)) :=
        List.perm_middle
      have s3 : List.Perm
          (sid :: ((dictDel sid m.positions).map Prod.fst ++
            m.closed_positions.map SpreadPosition.spread_id))
          (m.positions.map Prod.fst ++
            m.closed_positions.map SpreadPosition.spread_id) := by
        have := List.Perm.append_right
          (m.closed_positions.map SpreadPosition.spread_id) hkeys
        simpa using this
      simpa using ((s1.trans s2).trans s3).trans hperm
    · intro kv hkv
      exact hfield kv (dictDel_subset hkv)

theorem pm_inv_foldl : ∀ (ops : List PMOp) (m : PositionManager),
    PMInv m → PMInv (ops.foldl PositionManager.step m) := by
  intro ops
  induction ops with
  | nil => intro m h; exact h
  | cons op t ih =>
    intro m h
    rw [List.foldl_cons]
    apply ih
    cases op with
    | openOp now u sn ls ss lp sp q lsz b =>
      exact pm_inv_open m h now u sn ls ss lp sp q lsz b
    | closeOp sid now el es b =>
      exact pm_inv_close m h sid now el es b

theorem pm_inv_run (ops : List PMOp) : PMInv (PositionManager.run ops) :=
  pm_inv_foldl ops PositionManager.initial pm_inv_initial

/-- C1: for every `SpreadPosition`, `net_debit = long_price − short_price`,
`total_cost = net_debit · quantity · lot_size`, and the position is open
exactly while `exit_time` is unset; a position created by `open_spread` is
open and sits in the open collection; after a successful `close_spread`
the position (recognised by its spread id) is in the closed collection and
its id is gone from the open dict; and in every state a fresh manager can
reach, the ids in the open and closed collections together are exactly the
ids ever handed out, without duplication — each opened position is in
exactly one of the two collections, never both, never neither. -/
theorem C1_spread_lifecycle :
    (∀ p : SpreadPosition, p.net_debit = p.long_price - p.short_price) ∧
    (∀ p : SpreadPosition,
      p.total_cost = p.net_debit * (p.quantity : ℚ) * (p.lot_size : ℚ)) ∧
    (∀ p : SpreadPosition, p.is_open = true ↔ p.exit_time = none) ∧
    (∀ (m : PositionManager) (now : ℕ) (u sn ls ss : String) (lp sp : ℚ)
      (q lsz : ℤ) (b : ℚ),
      (m.open_spread now u sn ls ss lp sp q lsz b).2.is_open = true ∧
      (m.open_spread now u sn ls ss lp sp q lsz b).2.exit_time = none ∧
      (m.open_spread now u sn ls ss lp sp q lsz b).2 ∈
        (m.open_spread now u sn ls ss lp sp q lsz b).1.get_open_positions) ∧
    (∀ ops : List PMOp,
      List.Perm (PositionManager.run ops).allIds
        (PositionManager.run ops).openedIds ∧
      (PositionManager.run ops).allIds.Nodup) ∧
    (∀ (ops : List PMOp) (sid now : ℕ) (el es b : ℚ),
      (((PositionManager.run ops).close_spread sid now el es b).1).isSome =
          true →
      (∃ p ∈ (((PositionManager.run ops).close_spread sid now el es
          b).2).get_closed_positions, p.spread_id = sid ∧
          p.is_open = false) ∧
      sid ∉ (((PositionManager.run ops).close_spread sid now el es
          b).2).positions.map Prod.fst) := by
  refine ⟨fun p => rfl, fun p => rfl, ?_, ?_, ?_, ?_⟩
  · intro p
    rw [SpreadPosition.is_open, Option.isNone_iff_eq_none]
  · intro m now u sn ls ss lp sp q lsz b
    refine ⟨rfl, rfl, ?_⟩
    rw [PositionManager.open_spread]
    simp only [PositionManager.get_open_positions]
    rw [dictSet]
    by_cases hex : (dictGet (m.position_counter + 1) m.positions).isSome =
        true
    · rw [if_pos hex]
      obtain ⟨v, hv⟩ := Option.isSome_iff_exists.1 hex
      refine List.mem_map.2 ⟨(fun kv =>
        if kv.1 = m.position_counter + 1 then (m.position_counter + 1, _)
        else kv) (m.position_counter + 1, v),
        List.mem_map.2 ⟨(m.position_counter + 1, v), dictGet_mem hv, rfl⟩,
        ?_⟩
      simp
    · rw [if_neg hex]
      simp
  · intro ops
    have hinv := pm_inv_run ops
    have hnd : (PositionManager.run ops).allIds.Nodup :=
      (hinv.1.nodup_iff).2 (openedIds_nodup _)
    exact ⟨hinv.1, hnd⟩
  · intro ops sid now el es b h
    obtain ⟨hperm, hfield⟩ := pm_inv_run ops
    have hnd : (PositionManager.run ops).allIds.Nodup :=
      (hperm.nodup_iff).2 (openedIds_nodup _)
    have hknd : ((PositionManager.run ops).positions.map Prod.fst).Nodup :=
      hnd.of_append_left
    cases hget : dictGet sid (PositionManager.run ops).positions with
    | none =>
      rw [PositionManager.close_spread, hget] at h
      exact absurd h (by simp)
    | some p =>
      have hred : (PositionManager.run ops).close_spread sid now el es b =
          (some (p.close now el es b).2,
            { positions := dictDel sid (PositionManager.run ops).positions
              closed_positions :=
                (PositionManager.run ops).closed_positions ++
                  [(p.close now el es b).1]
              position_counter :=
                (PositionManager.run ops).position_counter }) := by
        rw [PositionManager.close_spread, hget]
      rw [hred]
      constructor
      · refine ⟨(p.close now el es b).1, ?_, ?_, rfl⟩
        · simp [PositionManager.get_closed_positions]
        · have := hfield (sid, p) (dictGet_mem hget)
          simpa [SpreadPosition.close] using this
      · exact not_mem_keys_dictDel hknd

/-- Witness for C1: opening one spread on a fresh manager and closing it
by its id 1 moves it — closed, with its id — into the closed collection
and out of the open dict. -/
theorem C1_spread_lifecycle_witness :
    (∃ p ∈ (((PositionManager.run
        [PMOp.openOp 10 "NIFTY" "BullCallSpread" "L" "S" 5 3 1 1
          0]).close_spread 1 20 6 3 0).2).get_closed_positions,
      p.spread_id = 1 ∧ p.is_open = false) ∧
    1 ∉ (((PositionManager.run
        [PMOp.openOp 10 "NIFTY" "BullCallSpread" "L" "S" 5 3 1 1
          0]).close_spread 1 20 6 3 0).2).positions.map Prod.fst :=
  C1_spread_lifecycle.2.2.2.2.2
    [PMOp.openOp 10 "NIFTY" "BullCallSpread" "L" "S" 5 3 1 1 0]
    1 20 6 3 0 (by decide)

end StratEdge
